import Mathlib

/-!
Verification of the devotion CLI workflow core against its specification.

Strings from the TypeScript source are modeled as `List Char` wherever the
code inspects individual characters (branch names, descriptions, ticket
identifiers); string values that the code only compares for equality
(status labels, check states) are modeled as Lean `String`.  JavaScript
`toLowerCase` is modeled on the ASCII range (`Char.toLower`), and the
regex class `\s` by the ASCII whitespace characters; every character the
workflow manipulates is ASCII, so no behavior is lost.
-/

namespace Devotion

/-- Character class `[A-Za-z]` of the ticket-identifier regex. -/
def isLetterCh (c : Char) : Bool :=
  decide (('a' ≤ c ∧ c ≤ 'z') ∨ ('A' ≤ c ∧ c ≤ 'Z'))

/-- Character class `\d` (equivalently `[0-9]`). -/
def isDigitCh (c : Char) : Bool :=
  decide ('0' ≤ c ∧ c ≤ '9')

/-- Character class `[a-z]`. -/
def isLowerCh (c : Char) : Bool :=
  decide ('a' ≤ c ∧ c ≤ 'z')

/-- Character class `\s`, restricted to its ASCII members. -/
def isSpaceCh (c : Char) : Bool :=
  c == ' ' || c == '\t' || c == '\n' || c == '\r' || c == '\x0b' || c == '\x0c'

/-!
### utils.ts — extractTicketIdFromBranchName

The source matches the branch name against the regex `/\/([A-Za-z]+-\d+)_/`
and returns the first capture, or `null`.  `matchTicketAt` is the attempt
of the regex body at one position (just after a literal `/`);
`extractAux` is the left-to-right scan of JavaScript `String.match`.
-/

/-- One attempt of `([A-Za-z]+-\d+)_` at the position following a `/`:
letters, a hyphen, digits, then an underscore; returns the capture.
The regex is deterministic here because the four character classes
involved are pairwise disjoint, so greedy matching needs no backtracking. -/
def matchTicketAt (cs : List Char) : Option (List Char) :=
  let ls := cs.takeWhile isLetterCh
  let rest1 := cs.dropWhile isLetterCh
  if rest1.head? = some '-' then
    let ds := rest1.tail.takeWhile isDigitCh
    let rest2 := rest1.tail.dropWhile isDigitCh
    if rest2.head? = some '_' then
      if ls.isEmpty || ds.isEmpty then none else some (ls ++ '-' :: ds)
    else none
  else none

/-- Left-to-right scan: at each literal `/`, try the regex body on the rest;
the first success wins (JavaScript `match` semantics). -/
def extractAux : List Char → Option (List Char)
  | [] => none
  | c :: cs =>
    if c = '/' then
      match matchTicketAt cs with
      | some t => some t
      | none => extractAux cs
    else extractAux cs

/-- utils.ts `extractTicketIdFromBranchName`: first match of
`/\/([A-Za-z]+-\d+)_/` in the branch name, else `null` (here `none`). -/
def extractTicketIdFromBranchName (branchName : List Char) : Option (List Char) :=
  extractAux branchName

/-- Full match of the ticket-identifier shape `[A-Za-z]+-\d+` (the spec's
`PREFIX-NUMBER` form): one or more letters, a hyphen, one or more digits,
nothing else. -/
def isTicketId (cs : List Char) : Bool :=
  let ls := cs.takeWhile isLetterCh
  let rest1 := cs.dropWhile isLetterCh
  rest1.head? == some '-' &&
    (!ls.isEmpty && (!rest1.tail.isEmpty && rest1.tail.all isDigitCh))

/-- The segment of `v` before its first underscore qualifies as a ticket
identifier and an underscore actually follows it — the claim's notion of
a qualifying segment between a `/` and the next `_`. -/
def hasTicketSegment (v : List Char) : Bool :=
  v.any (fun c => c == '_') && isTicketId (v.takeWhile (fun c => c != '_'))

/-!
### utils.ts — buildBranchPrefix and sanitizeDescription
-/

/-- JavaScript `String.prototype.includes`: `containsSub needle hay`. -/
def containsSub (needle : List Char) : List Char → Bool
  | [] => needle.isEmpty
  | c :: cs => needle.isPrefixOf (c :: cs) || containsSub needle cs

/-- The `prefix` local of utils.ts `buildBranchPrefix`: the category word
derived from the ticket type by case-insensitive substring matching,
defaulting to `feature`.  A `none` or empty type is falsy in the source's
`if (ticketType)` guard. -/
def branchCategoryWord (ticketType : Option (List Char)) : List Char :=
  match ticketType with
  | none => String.toList "feature"
  | some t =>
    if t.isEmpty then String.toList "feature"
    else
      let lowerType := t.map Char.toLower
      if containsSub (String.toList "bug") lowerType then String.toList "bugfix"
      else if containsSub (String.toList "documentation") lowerType
          || containsSub (String.toList "dokumentation") lowerType then String.toList "doc"
      else String.toList "feature"

/-- utils.ts `buildBranchPrefix`: returns `{category}/{ticketId}_`. -/
def buildBranchPrefix (ticketType : Option (List Char)) (ticketId : List Char) : List Char :=
  branchCategoryWord ticketType ++ '/' :: (ticketId ++ ['_'])

/-- Replacement `/\s+/g → "_"`: each maximal whitespace run becomes one
underscore.  The flag records whether the previous character was part of a
whitespace run still being collapsed. -/
def collapseSpacesAux : Bool → List Char → List Char
  | _, [] => []
  | inRun, c :: cs =>
    if isSpaceCh c then
      if inRun then collapseSpacesAux true cs
      else '_' :: collapseSpacesAux true cs
    else c :: collapseSpacesAux false cs

/-- Replacement `/_{2,}/g → "_"`: collapse underscore runs to one. -/
def collapseUnderscoresAux : Bool → List Char → List Char
  | _, [] => []
  | inRun, c :: cs =>
    if c = '_' then
      if inRun then collapseUnderscoresAux true cs
      else '_' :: collapseUnderscoresAux true cs
    else c :: collapseUnderscoresAux false cs

/-- The `_+$` half of `/^_+|_+$/g`: drop the trailing underscore run. -/
def dropTrailingUnderscores : List Char → List Char
  | [] => []
  | c :: cs =>
    match dropTrailingUnderscores cs with
    | [] => if c = '_' then [] else [c]
    | d :: ds => c :: d :: ds

/-- utils.ts `sanitizeDescription`: lower-case, delete every character
outside `[a-z0-9\s]`, collapse whitespace runs to `_`, collapse repeated
underscores, strip leading and trailing underscores, then truncate to 50
characters — in exactly the source's order, truncation last. -/
def sanitizeDescription (description : List Char) : List Char :=
  let lowered := description.map Char.toLower
  let cleaned := lowered.filter (fun c => isLowerCh c || isDigitCh c || isSpaceCh c)
  let underscored := collapseSpacesAux false cleaned
  let collapsed := collapseUnderscoresAux false underscored
  let trimmed := dropTrailingUnderscores (collapsed.dropWhile (fun c => c == '_'))
  trimmed.take 50

/-!
### github.service.ts — data and decision logic
-/

/-- models/github.ts `PullRequest` (the projection used by list/create). -/
structure PullRequest where
  number : Nat
  url : String
  title : String
deriving DecidableEq

/-- models/github.ts `PullRequestDetails` (the projection used by `pulls.get`);
`mergeable` is the host's tri-state flag, `none` meaning not yet computed. -/
structure PullRequestDetails where
  number : Nat
  url : String
  title : String
  mergeable : Option Bool
  merged : Bool
  headRef : String
  headSha : String
  baseRef : String
deriving DecidableEq

/-- One element of `checkRunsResponse.data.check_runs`. -/
structure CheckRun where
  status : String
  conclusion : Option String
deriving DecidableEq

/-- The legacy combined commit status: its `state` and its `statuses` array
(whose elements the code never inspects, only counts). -/
structure CombinedStatus where
  state : String
  statuses : List String
deriving DecidableEq

/-- models/github.ts `CheckStatus`, the result of `checkPullRequestStatus`. -/
structure CheckStatus where
  state : String
  conclusion : Option String := none
deriving DecidableEq

/-- github.service.ts `checkPullRequestStatus`, aggregation branch: given the
fetched combined status and check runs, compute the overall check state.
(The surrounding network try/catch, which yields `{state := "error"}` on a
thrown request, is outside this pure aggregation.) -/
def checkPullRequestStatus (combined : CombinedStatus) (checkRuns : List CheckRun) : CheckStatus :=
  if checkRuns.length > 0 then
    let failedRuns := checkRuns.filter (fun run =>
      run.conclusion == some "failure" || run.conclusion == some "cancelled"
        || run.conclusion == some "timed_out")
    let pendingRuns := checkRuns.filter (fun run =>
      run.status == "in_progress" || run.status == "queued" || run.conclusion == none)
    if failedRuns.length > 0 then { state := "failure", conclusion := some "failure" }
    else if pendingRuns.length > 0 then { state := "pending", conclusion := none }
    else { state := "success", conclusion := some "success" }
  else if combined.state == "pending" || combined.state == "success"
      || combined.statuses.length == 0 then
    { state := if combined.statuses.length == 0 then "success" else combined.state }
  else
    { state := combined.state }

/-- github.service.ts `checkIfPullRequestExists`: the remote call either
returns the list of matching open pull requests or fails.  On success the
first element (if any) is returned; the catch block logs the error and
returns `null` — it does not rethrow. -/
def checkIfPullRequestExists (response : Except String (List PullRequest)) : Option PullRequest :=
  match response with
  | Except.ok prs =>
    match prs with
    | [] => none
    | pr :: _ => some pr
  | Except.error _ => none

/-!
### finish.ts — merge gate (steps 9-14) and branch cleanup (step 16)
-/

/-- Trace of one run of the finish transition from the point where PR
details are available (finish.ts steps 10-14). -/
structure FinishRun where
  abortedBeforeConfirm : Bool
  warnedPending : Bool
  reachedConfirmGate : Bool
  cancelledByUser : Bool
  mergeCalled : Bool
deriving DecidableEq

/-- finish.ts steps 10-14: abort if merged; abort if `mergeable === false`
(`null` falls through); abort if the aggregated state is `failure` or
`error`; warn if `pending`; then the confirmation prompt, and the merge
call only on a positive answer. -/
def finishGate (prDetails : PullRequestDetails) (checkStatus : CheckStatus)
    (confirmMerge : Bool) : FinishRun :=
  if prDetails.merged then
    { abortedBeforeConfirm := true, warnedPending := false, reachedConfirmGate := false,
      cancelledByUser := false, mergeCalled := false }
  else if prDetails.mergeable = some false then
    { abortedBeforeConfirm := true, warnedPending := false, reachedConfirmGate := false,
      cancelledByUser := false, mergeCalled := false }
  else if checkStatus.state = "failure" ∨ checkStatus.state = "error" then
    { abortedBeforeConfirm := true, warnedPending := false, reachedConfirmGate := false,
      cancelledByUser := false, mergeCalled := false }
  else if confirmMerge then
    { abortedBeforeConfirm := false, warnedPending := checkStatus.state == "pending",
      reachedConfirmGate := true, cancelledByUser := false, mergeCalled := true }
  else
    { abortedBeforeConfirm := false, warnedPending := checkStatus.state == "pending",
      reachedConfirmGate := true, cancelledByUser := true, mergeCalled := false }

/-- Observable git operations of finish.ts step 16. -/
inductive CleanupEvent where
  | deleteRemoteBranch
  | deleteLocalBranch (force : Bool)
  | reportDeleteError
deriving DecidableEq

/-- finish.ts step 16: one `try` block running `deleteRemoteBranch` then
`deleteLocalBranch(_, force := true)`; a throw from either jumps to the
shared `catch`, which reports the error and lets the command continue
(the step is non-fatal). -/
def finishBranchCleanup (remoteDeleteFails localDeleteFails : Bool) : List CleanupEvent :=
  if remoteDeleteFails then
    [CleanupEvent.deleteRemoteBranch, CleanupEvent.reportDeleteError]
  else if localDeleteFails then
    [CleanupEvent.deleteRemoteBranch, CleanupEvent.deleteLocalBranch true,
      CleanupEvent.reportDeleteError]
  else
    [CleanupEvent.deleteRemoteBranch, CleanupEvent.deleteLocalBranch true]

/-!
### mr.ts — the open-for-review transition from the existence check on

The world holds the only two pieces of remote state this part of `mrMain`
reads and writes: the open pull request for (head = current branch,
base = development branch) as the code host reports it, and the ticket's
status.  Running the command again with no external changes means running
`mrMain` on the world the previous run produced.
-/

def TICKET_STATUS_BACKLOG : String := "📋 Backlog"

def TICKET_STATUS_IN_REVIEW : String := "👀 In review"

structure MrWorld where
  openPR : Option Nat
  ticketStatus : String
deriving DecidableEq

/-- Remote mutations one `mrMain` run performs past the existence check. -/
structure MrActions where
  prCreations : Nat
  statusWrites : Nat
deriving DecidableEq

/-- mr.ts `mrMain`, from `checkIfPullRequestExists` on: with an existing PR,
only a conditional status write; with none, `createPullRequest` followed by
an unconditional status write (label/assignee/URL steps touch neither the
open-PR set nor the ticket status and are not tracked). -/
def mrMain (w : MrWorld) : MrWorld × MrActions :=
  match w.openPR with
  | some n =>
    if w.ticketStatus ≠ TICKET_STATUS_IN_REVIEW then
      ({ openPR := some n, ticketStatus := TICKET_STATUS_IN_REVIEW },
       { prCreations := 0, statusWrites := 1 })
    else
      ({ openPR := some n, ticketStatus := w.ticketStatus },
       { prCreations := 0, statusWrites := 0 })
  | none =>
    ({ openPR := some 0, ticketStatus := TICKET_STATUS_IN_REVIEW },
     { prCreations := 1, statusWrites := 1 })

/-!
### dev.ts — the start-work transition for a selected ticket
-/

def TICKET_STATUS_IN_PROGRESS : String := "🏗 In progress"

/-- git.service.ts `findBranchWithTicketId`: first branch (locals before
remotes, deduplicated) containing `{ticketId}_` as a substring. -/
def findBranchWithTicketId (ticketId : List Char) (branches : List (List Char)) :
    Option (List Char) :=
  branches.find? (fun branch => containsSub (ticketId ++ ['_']) branch)

structure DevWorld where
  ticketStatus : String
  branches : List (List Char)
deriving DecidableEq

/-- Remote mutations and the branch action of one `devMain` run. -/
structure DevActions where
  branchCreations : Nat
  statusUpdates : Nat
  switchedToExisting : Bool
deriving DecidableEq

/-- dev.ts `devMain`, from the branch lookup on, for the selected ticket:
if a branch with `{ticketId}_` exists, switch to it and pull; otherwise
build `{prefix}{sanitized description}` (the prompt handler returns the
description already passed through `sanitizeDescription`), create it from
the development branch and push it.  Afterwards the status is written to
"🏗 In progress" only when it differs. -/
def devMain (ticketId : List Char) (ticketType : Option (List Char)) (desc : List Char)
    (w : DevWorld) : DevWorld × DevActions :=
  match findBranchWithTicketId ticketId w.branches with
  | some _ =>
    if w.ticketStatus ≠ TICKET_STATUS_IN_PROGRESS then
      ({ ticketStatus := TICKET_STATUS_IN_PROGRESS, branches := w.branches },
       { branchCreations := 0, statusUpdates := 1, switchedToExisting := true })
    else
      ({ ticketStatus := w.ticketStatus, branches := w.branches },
       { branchCreations := 0, statusUpdates := 0, switchedToExisting := true })
  | none =>
    let branchName := buildBranchPrefix ticketType ticketId ++ sanitizeDescription desc
    if w.ticketStatus ≠ TICKET_STATUS_IN_PROGRESS then
      ({ ticketStatus := TICKET_STATUS_IN_PROGRESS, branches := branchName :: w.branches },
       { branchCreations := 1, statusUpdates := 1, switchedToExisting := false })
    else
      ({ ticketStatus := w.ticketStatus, branches := branchName :: w.branches },
       { branchCreations := 1, statusUpdates := 0, switchedToExisting := false })

/-!
### notion.service.ts — mapPageToTicket
-/

def DEFAULT_UNTITLED : String := "Untitled"

def DEFAULT_UNKNOWN_STATUS : String := "Unknown"

def NOTION_PROPERTY_STATUS : String := "Status"

def NOTION_PROPERTY_TYPE : String := "Type"

def NOTION_TYPE_TITLE : String := "title"

def NOTION_TYPE_STATUS : String := "status"

def NOTION_TYPE_SELECT : String := "select"

def NOTION_TYPE_UNIQUE_ID : String := "unique_id"

/-- One value of the page's dynamic `properties` record: its `type` tag and
the payloads the mapper reads.  `title` is the list of `plain_text` values
of the title rich-text array. -/
structure PageProperty where
  type : String
  title : List String := []
  status : Option String := none
  select : Option String := none
  uniqueIdNumber : Option Nat := none
  uniqueIdPrefix : Option String := none
deriving DecidableEq

/-- A Notion page: id plus its (uniquely-keyed) properties record, in
`Object.entries` order. -/
structure NotionPage where
  id : String
  properties : List (String × PageProperty)
deriving DecidableEq

/-- models/notion.ts `NotionTicket`. -/
structure NotionTicket where
  id : String
  title : String
  status : String
  type : Option String
  ticketId : Option String
deriving DecidableEq

/-- JavaScript truthiness of an optional string: present and nonempty. -/
def truthy (s : Option String) : Option String :=
  match s with
  | some str => if str = "" then none else some str
  | none => none

/-- notion.service.ts `mapPageToTicket`: first truthy title property text or
"Untitled"; the "Status" property's status name or "Unknown"; the "Type"
property's select name or `undefined`; the first truthy unique_id as
`{prefix}-{number}` or `undefined`.  Total — no input fails. -/
def mapPageToTicket (page : NotionPage) : NotionTicket :=
  let title := (page.properties.findSome? (fun kp =>
      if kp.2.type = NOTION_TYPE_TITLE then truthy kp.2.title.head? else none)).getD
    DEFAULT_UNTITLED
  let status := (match page.properties.lookup NOTION_PROPERTY_STATUS with
      | some p => if p.type = NOTION_TYPE_STATUS then truthy p.status else none
      | none => none).getD DEFAULT_UNKNOWN_STATUS
  let type := match page.properties.lookup NOTION_PROPERTY_TYPE with
      | some p => if p.type = NOTION_TYPE_SELECT then truthy p.select else none
      | none => none
  let ticketId := page.properties.findSome? (fun kp =>
      if kp.2.type = NOTION_TYPE_UNIQUE_ID then
        match kp.2.uniqueIdNumber, truthy kp.2.uniqueIdPrefix with
        | some n, some pfx => if n = 0 then none else some (pfx ++ "-" ++ toString n)
        | _, _ => none
      else none)
  { id := page.id, title := title, status := status, type := type, ticketId := ticketId }

/-!
### Observations about sanitized output, used to state the spec's shape claims
-/

/-- Membership in `[a-z0-9_]`. -/
def sanitizedChar (c : Char) : Bool := isLowerCh c || isDigitCh c || c == '_'

/-- The list does not begin with an underscore. -/
def headNotUnderscore : List Char → Bool
  | [] => true
  | c :: _ => c != '_'

/-- No two adjacent underscores anywhere in the list. -/
def noDoubledUnderscore : List Char → Bool
  | [] => true
  | [_] => true
  | a :: b :: t => !(a == '_' && b == '_') && noDoubledUnderscore (b :: t)

/-!
### Helper lemmas about takeWhile and dropWhile on structured inputs
-/

lemma takeWhile_append_all {p : Char → Bool} {l : List Char} (r : List Char)
    (h : ∀ c ∈ l, p c = true) : (l ++ r).takeWhile p = l ++ r.takeWhile p := by
  induction l with
  | nil => simp
  | cons c cs ih =>
    rw [List.cons_append, List.takeWhile_cons_of_pos (h c (by simp)), List.cons_append,
      ih (fun x hx => h x (by simp [hx]))]

lemma dropWhile_append_all {p : Char → Bool} {l : List Char} (r : List Char)
    (h : ∀ c ∈ l, p c = true) : (l ++ r).dropWhile p = r.dropWhile p := by
  induction l with
  | nil => simp
  | cons c cs ih =>
    rw [List.cons_append, List.dropWhile_cons_of_pos (h c (by simp)),
      ih (fun x hx => h x (by simp [hx]))]

lemma takeWhile_append_of_ne_nil {p : Char → Bool} {l : List Char} (r : List Char)
    (h : l.dropWhile p ≠ []) :
    (l ++ r).takeWhile p = l.takeWhile p ∧ (l ++ r).dropWhile p = l.dropWhile p ++ r := by
  induction l with
  | nil => simp at h
  | cons c cs ih =>
    by_cases hc : p c = true
    · rw [List.dropWhile_cons_of_pos hc] at h
      obtain ⟨h1, h2⟩ := ih h
      rw [List.cons_append, List.takeWhile_cons_of_pos hc, List.dropWhile_cons_of_pos hc,
        List.takeWhile_cons_of_pos hc, List.dropWhile_cons_of_pos hc, h1, h2]
      exact ⟨rfl, rfl⟩
    · rw [List.cons_append, List.takeWhile_cons_of_neg hc, List.dropWhile_cons_of_neg hc,
        List.takeWhile_cons_of_neg hc, List.dropWhile_cons_of_neg hc]
      exact ⟨rfl, rfl⟩

/-!
### Lemmas about the ticket-identifier regex fragment
-/

lemma matchTicketAt_hit {L D : List Char} (desc : List Char)
    (hL : L ≠ []) (hLall : ∀ c ∈ L, isLetterCh c = true)
    (hD : D ≠ []) (hDall : ∀ c ∈ D, isDigitCh c = true) :
    matchTicketAt (L ++ '-' :: (D ++ '_' :: desc)) = some (L ++ '-' :: D) := by
  have h1 : (L ++ '-' :: (D ++ '_' :: desc)).takeWhile isLetterCh = L := by
    rw [takeWhile_append_all _ hLall, List.takeWhile_cons_of_neg (by decide), List.append_nil]
  have h2 : (L ++ '-' :: (D ++ '_' :: desc)).dropWhile isLetterCh = '-' :: (D ++ '_' :: desc) := by
    rw [dropWhile_append_all _ hLall, List.dropWhile_cons_of_neg (by decide)]
  have h3 : (D ++ '_' :: desc).takeWhile isDigitCh = D := by
    rw [takeWhile_append_all _ hDall, List.takeWhile_cons_of_neg (by decide), List.append_nil]
  have h4 : (D ++ '_' :: desc).dropWhile isDigitCh = '_' :: desc := by
    rw [dropWhile_append_all _ hDall, List.dropWhile_cons_of_neg (by decide)]
  simp [matchTicketAt, h1, h2, h3, h4, hL, hD]

lemma isTicketId_decomp {id : List Char} (h : isTicketId id = true) :
    ∃ L D, id = L ++ '-' :: D ∧ L ≠ [] ∧ (∀ c ∈ L, isLetterCh c = true) ∧
      D ≠ [] ∧ (∀ c ∈ D, isDigitCh c = true) := by
  unfold isTicketId at h
  cases hdw : id.dropWhile isLetterCh with
  | nil => rw [hdw] at h; simp at h
  | cons x xs =>
    rw [hdw] at h
    simp only [List.head?_cons, List.tail_cons, Option.some.injEq, beq_iff_eq,
      Bool.and_eq_true, Bool.not_eq_true', List.isEmpty_eq_false, List.all_eq_true] at h
    obtain ⟨hx, hls, hxs, hall⟩ := h
    subst hx
    refine ⟨id.takeWhile isLetterCh, xs, ?_, hls, ?_, hxs, hall⟩
    · conv_lhs => rw [← List.takeWhile_append_dropWhile (p := isLetterCh) (l := id), hdw]
    · exact fun c hc => List.mem_takeWhile_imp hc

lemma isTicketId_build {L D : List Char}
    (hL : L ≠ []) (hLall : ∀ c ∈ L, isLetterCh c = true)
    (hD : D ≠ []) (hDall : ∀ c ∈ D, isDigitCh c = true) :
    isTicketId (L ++ '-' :: D) = true := by
  have h1 : (L ++ '-' :: D).takeWhile isLetterCh = L := by
    rw [takeWhile_append_all _ hLall, List.takeWhile_cons_of_neg (by decide), List.append_nil]
  have h2 : (L ++ '-' :: D).dropWhile isLetterCh = '-' :: D := by
    rw [dropWhile_append_all _ hLall, List.dropWhile_cons_of_neg (by decide)]
  simp [isTicketId, h1, h2, hL, hD]
  exact hDall

lemma matchTicketAt_of_isTicketId {id : List Char} (desc : List Char)
    (h : isTicketId id = true) : matchTicketAt (id ++ '_' :: desc) = some id := by
  obtain ⟨L, D, hid, hL, hLall, hD, hDall⟩ := isTicketId_decomp h
  subst hid
  rw [List.append_assoc, List.cons_append]
  exact matchTicketAt_hit desc hL hLall hD hDall

lemma matchTicketAt_append_slash {s : List Char} (r : List Char)
    (h : matchTicketAt s = none) :
    matchTicketAt (s ++ '/' :: r) = none := by
  by_cases hnil : s.dropWhile isLetterCh = []
  · have hall : ∀ c ∈ s, isLetterCh c = true :=
      fun c hc => List.dropWhile_eq_nil_iff.mp hnil c hc
    have h2 : (s ++ '/' :: r).dropWhile isLetterCh = '/' :: r := by
      rw [dropWhile_append_all _ hall, List.dropWhile_cons_of_neg (by decide)]
    simp [matchTicketAt, h2]
  · obtain ⟨hT, hD⟩ := takeWhile_append_of_ne_nil ('/' :: r) hnil
    cases hdw : s.dropWhile isLetterCh with
    | nil => exact absurd hdw hnil
    | cons x xs =>
      rw [hdw, List.cons_append] at hD
      by_cases hx : x = '-'
      case neg => simp [matchTicketAt, hD, hx]
      subst hx
      by_cases hnil2 : xs.dropWhile isDigitCh = []
      · have hall2 : ∀ c ∈ xs, isDigitCh c = true :=
          fun c hc => List.dropWhile_eq_nil_iff.mp hnil2 c hc
        have h4 : (xs ++ '/' :: r).dropWhile isDigitCh = '/' :: r := by
          rw [dropWhile_append_all _ hall2, List.dropWhile_cons_of_neg (by decide)]
        simp [matchTicketAt, hD, h4]
      · obtain ⟨hT2, hD2⟩ := takeWhile_append_of_ne_nil ('/' :: r) hnil2
        cases hdw2 : xs.dropWhile isDigitCh with
        | nil => exact absurd hdw2 hnil2
        | cons y ys =>
          rw [hdw2, List.cons_append] at hD2
          by_cases hy : y = '_'
          case neg => simp [matchTicketAt, hD, hD2, hT2, hy]
          subst hy
          simp only [matchTicketAt, hdw, hdw2, List.head?_cons, List.tail_cons,
            if_pos rfl] at h
          simp only [matchTicketAt, hD, hD2, hT, hT2, List.head?_cons, List.tail_cons,
            if_pos rfl]
          exact h

lemma matchTicketAt_inv {v t : List Char} (h : matchTicketAt v = some t) :
    ∃ L D rest, v = L ++ '-' :: (D ++ '_' :: rest) ∧ t = L ++ '-' :: D ∧ L ≠ [] ∧
      (∀ c ∈ L, isLetterCh c = true) ∧ D ≠ [] ∧ (∀ c ∈ D, isDigitCh c = true) := by
  unfold matchTicketAt at h
  cases hdw : v.dropWhile isLetterCh with
  | nil => rw [hdw] at h; simp at h
  | cons x xs =>
    rw [hdw] at h
    simp only [List.head?_cons, List.tail_cons] at h
    by_cases hx : x = '-'
    case neg => rw [if_neg (by simp [hx])] at h; cases h
    subst hx
    rw [if_pos rfl] at h
    cases hdw2 : xs.dropWhile isDigitCh with
    | nil => rw [hdw2] at h; simp at h
    | cons y ys =>
      rw [hdw2] at h
      simp only [List.head?_cons] at h
      by_cases hy : y = '_'
      case neg => rw [if_neg (by simp [hy])] at h; cases h
      subst hy
      rw [if_pos rfl] at h
      by_cases hemp : (v.takeWhile isLetterCh).isEmpty || (xs.takeWhile isDigitCh).isEmpty
      · rw [if_pos hemp] at h; cases h
      · rw [if_neg hemp] at h
        simp only [Bool.or_eq_true, List.isEmpty_eq_true, not_or] at hemp
        obtain ⟨hne1, hne2⟩ := hemp
        have hxs : xs = xs.takeWhile isDigitCh ++ '_' :: ys := by
          conv_lhs => rw [← List.takeWhile_append_dropWhile (p := isDigitCh) (l := xs), hdw2]
        have hv : v = v.takeWhile isLetterCh ++ '-' :: xs := by
          conv_lhs => rw [← List.takeWhile_append_dropWhile (p := isLetterCh) (l := v), hdw]
        refine ⟨v.takeWhile isLetterCh, xs.takeWhile isDigitCh, ys, ?_, ?_, hne1, ?_, hne2, ?_⟩
        · conv_lhs => rw [← List.takeWhile_append_dropWhile (p := isLetterCh) (l := v), hdw, hxs]
        · injection h with ht; exact ht.symm
        · exact fun c hc => List.mem_takeWhile_imp hc
        · exact fun c hc => List.mem_takeWhile_imp hc

lemma ne_und_of_letter {c : Char} (h : isLetterCh c = true) : (c != '_') = true := by
  rw [bne_iff_ne]
  rintro rfl
  revert h
  decide

lemma ne_und_of_digit {c : Char} (h : isDigitCh c = true) : (c != '_') = true := by
  rw [bne_iff_ne]
  rintro rfl
  revert h
  decide

lemma hasTicketSegment_of_match {v t : List Char} (h : matchTicketAt v = some t) :
    hasTicketSegment v = true := by
  obtain ⟨L, D, rest, hv, _, hL, hLall, hD, hDall⟩ := matchTicketAt_inv h
  subst hv
  have htw : (L ++ '-' :: (D ++ '_' :: rest)).takeWhile (fun c => c != '_') = L ++ '-' :: D := by
    rw [takeWhile_append_all _ (fun c hc => ne_und_of_letter (hLall c hc)),
      List.takeWhile_cons_of_pos (by decide),
      takeWhile_append_all _ (fun c hc => ne_und_of_digit (hDall c hc)),
      List.takeWhile_cons_of_neg (by decide), List.append_nil]
  have hany : (L ++ '-' :: (D ++ '_' :: rest)).any (fun c => c == '_') = true := by
    simp
  unfold hasTicketSegment
  rw [hany, htw, isTicketId_build hL hLall hD hDall]
  rfl

lemma matchTicketAt_eq_none_of_no_seg {v : List Char} (h : hasTicketSegment v = false) :
    matchTicketAt v = none := by
  cases hm : matchTicketAt v with
  | none => rfl
  | some t => rw [hasTicketSegment_of_match hm] at h; cases h

/-!
### Lemmas about the full scan `extractAux`
-/

lemma extractAux_cons_slash_some {cs t : List Char} (h : matchTicketAt cs = some t) :
    extractAux ('/' :: cs) = some t := by
  simp [extractAux, h]

lemma extractAux_cons_slash_none {cs : List Char} (h : matchTicketAt cs = none) :
    extractAux ('/' :: cs) = extractAux cs := by
  simp [extractAux, h]

lemma extractAux_cons_other {c : Char} {cs : List Char} (h : ¬ c = '/') :
    extractAux (c :: cs) = extractAux cs := by
  simp [extractAux, h]

lemma extractAux_append_slash {cat : List Char} (id desc : List Char)
    (hcat : extractAux cat = none) (hid : isTicketId id = true) :
    extractAux (cat ++ '/' :: (id ++ '_' :: desc)) = some id := by
  induction cat with
  | nil =>
    rw [List.nil_append, extractAux_cons_slash_some (matchTicketAt_of_isTicketId desc hid)]
  | cons c cs ih =>
    by_cases hc : c = '/'
    · subst hc
      cases hm : matchTicketAt cs with
      | some t => rw [extractAux_cons_slash_some hm] at hcat; cases hcat
      | none =>
        rw [extractAux_cons_slash_none hm] at hcat
        rw [List.cons_append, extractAux_cons_slash_none (matchTicketAt_append_slash _ hm)]
        exact ih hcat
    · rw [extractAux_cons_other hc] at hcat
      rw [List.cons_append, extractAux_cons_other hc]
      exact ih hcat

lemma extractAux_eq_none {N : List Char}
    (h : ∀ u v, N = u ++ '/' :: v → hasTicketSegment v = false) :
    extractAux N = none := by
  induction N with
  | nil => rfl
  | cons c cs ih =>
    have ih2 : extractAux cs = none :=
      ih (fun u v hv => h (c :: u) v (by rw [hv, List.cons_append]))
    by_cases hc : c = '/'
    · subst hc
      have hm : matchTicketAt cs = none :=
        matchTicketAt_eq_none_of_no_seg (h [] cs rfl)
      rw [extractAux_cons_slash_none hm]
      exact ih2
    · rw [extractAux_cons_other hc]
      exact ih2

/-!
### Lemmas about the sanitizeDescription pipeline
-/

lemma dropTrailing_cons (c : Char) (cs : List Char) :
    dropTrailingUnderscores (c :: cs) =
      match dropTrailingUnderscores cs with
      | [] => if c = '_' then [] else [c]
      | d :: ds => c :: d :: ds := rfl

lemma dropTrailing_eq_append : ∀ l : List Char, ∃ t, l = dropTrailingUnderscores l ++ t := by
  intro l
  induction l with
  | nil => exact ⟨[], rfl⟩
  | cons c cs ih =>
    obtain ⟨t, ht⟩ := ih
    cases hr : dropTrailingUnderscores cs with
    | nil =>
      by_cases hc : c = '_'
      · exact ⟨c :: cs, by simp [dropTrailing_cons, hr, hc]⟩
      · refine ⟨cs, ?_⟩
        simp [dropTrailing_cons, hr, hc]
    | cons d ds =>
      refine ⟨t, ?_⟩
      rw [hr] at ht
      simp [dropTrailing_cons, hr]
      exact ht

lemma dropTrailing_head (c : Char) (cs : List Char) :
    dropTrailingUnderscores (c :: cs) = [] ∨
      ∃ t, dropTrailingUnderscores (c :: cs) = c :: t := by
  cases hr : dropTrailingUnderscores cs with
  | nil =>
    by_cases hc : c = '_'
    · left; simp [dropTrailing_cons, hr, hc]
    · right; exact ⟨[], by simp [dropTrailing_cons, hr, hc]⟩
  | cons d ds =>
    right; exact ⟨d :: ds, by simp [dropTrailing_cons, hr]⟩

lemma collapseSpacesAux_all {l : List Char}
    (h : ∀ c ∈ l, (isLowerCh c || isDigitCh c || isSpaceCh c) = true) :
    ∀ (b : Bool), ∀ c ∈ collapseSpacesAux b l, sanitizedChar c = true := by
  induction l with
  | nil => intro b c hc; simp [collapseSpacesAux] at hc
  | cons a as ih =>
    intro b c hc
    have ha := h a (by simp)
    have has : ∀ x ∈ as, (isLowerCh x || isDigitCh x || isSpaceCh x) = true :=
      fun x hx => h x (by simp [hx])
    by_cases hsp : isSpaceCh a = true
    · rw [collapseSpacesAux, if_pos hsp] at hc
      cases b with
      | true => exact ih has true c hc
      | false =>
        simp only [Bool.false_eq_true, if_neg] at hc
        rcases List.mem_cons.mp hc with rfl | hmem
        · decide
        · exact ih has true c hmem
    · rw [collapseSpacesAux, if_neg hsp] at hc
      rcases List.mem_cons.mp hc with rfl | hmem
      · have : (isLowerCh c || isDigitCh c) = true := by
          rcases Bool.or_eq_true_iff.mp ha with h1 | h2
          · exact h1
          · exact absurd h2 hsp
        simp [sanitizedChar, this]
      · exact ih has false c hmem

lemma collapseUnderscoresAux_all {P : Char → Bool} (hP : P '_' = true) {l : List Char}
    (h : ∀ c ∈ l, P c = true) :
    ∀ (b : Bool), ∀ c ∈ collapseUnderscoresAux b l, P c = true := by
  induction l with
  | nil => intro b c hc; simp [collapseUnderscoresAux] at hc
  | cons a as ih =>
    intro b c hc
    have has : ∀ x ∈ as, P x = true := fun x hx => h x (by simp [hx])
    by_cases hu : a = '_'
    · rw [collapseUnderscoresAux, if_pos hu] at hc
      cases b with
      | true => exact ih has true c hc
      | false =>
        simp only [Bool.false_eq_true, if_neg] at hc
        rcases List.mem_cons.mp hc with rfl | hmem
        · exact hP
        · exact ih has true c hmem
    · rw [collapseUnderscoresAux, if_neg hu] at hc
      rcases List.mem_cons.mp hc with rfl | hmem
      · exact h _ (List.mem_cons_self _ _)
      · exact ih has false c hmem

lemma headNot_dropWhileUnd (l : List Char) :
    headNotUnderscore (l.dropWhile (fun c => c == '_')) = true := by
  induction l with
  | nil => rfl
  | cons c cs ih =>
    by_cases hc : (c == '_') = true
    · rw [List.dropWhile_cons_of_pos (p := fun x => x == '_') hc]; exact ih
    · rw [List.dropWhile_cons_of_neg (p := fun x => x == '_') hc]
      simpa [headNotUnderscore] using hc

lemma headNot_dropTrailing {l : List Char} (h : headNotUnderscore l = true) :
    headNotUnderscore (dropTrailingUnderscores l) = true := by
  cases l with
  | nil => exact h
  | cons c cs =>
    rcases dropTrailing_head c cs with h0 | ⟨t, ht⟩
    · rw [h0]; rfl
    · rw [ht]; exact h

lemma headNot_take (n : Nat) {l : List Char} (h : headNotUnderscore l = true) :
    headNotUnderscore (l.take n) = true := by
  cases n with
  | zero => rfl
  | succ m =>
    cases l with
    | nil => rfl
    | cons c cs => exact h

lemma noDoubled_tail {c : Char} {l : List Char}
    (h : noDoubledUnderscore (c :: l) = true) : noDoubledUnderscore l = true := by
  cases l with
  | nil => rfl
  | cons d ds =>
    rw [noDoubledUnderscore] at h
    exact (Bool.and_eq_true_iff.mp h).2

lemma noDoubled_cons {c : Char} {l : List Char} (h1 : noDoubledUnderscore l = true)
    (h2 : c = '_' → headNotUnderscore l = true) : noDoubledUnderscore (c :: l) = true := by
  cases l with
  | nil => rfl
  | cons d ds =>
    rw [noDoubledUnderscore, Bool.and_eq_true_iff]
    refine ⟨?_, h1⟩
    by_cases hc : c = '_'
    · have := h2 hc
      rw [headNotUnderscore, bne_iff_ne] at this
      simp [hc, this]
    · simp [hc]

lemma headNot_collapseUnd_true (l : List Char) :
    headNotUnderscore (collapseUnderscoresAux true l) = true := by
  induction l with
  | nil => rfl
  | cons c cs ih =>
    by_cases hc : c = '_'
    · rw [collapseUnderscoresAux, if_pos hc]
      simpa using ih
    · rw [collapseUnderscoresAux, if_neg hc]
      simpa [headNotUnderscore, bne_iff_ne] using hc

lemma noDoubled_collapseUnd (l : List Char) :
    ∀ b, noDoubledUnderscore (collapseUnderscoresAux b l) = true := by
  induction l with
  | nil => intro b; rfl
  | cons c cs ih =>
    intro b
    by_cases hc : c = '_'
    · rw [collapseUnderscoresAux, if_pos hc]
      cases b with
      | true => exact ih true
      | false =>
        simp only [Bool.false_eq_true, if_neg]
        exact noDoubled_cons (ih true) (fun _ => headNot_collapseUnd_true cs)
    · rw [collapseUnderscoresAux, if_neg hc]
      exact noDoubled_cons (ih false) (fun h => absurd h hc)

lemma noDoubled_append_right {l t : List Char}
    (h : noDoubledUnderscore (l ++ t) = true) : noDoubledUnderscore l = true := by
  induction l with
  | nil => rfl
  | cons c cs ih =>
    cases cs with
    | nil => rfl
    | cons d ds =>
      rw [List.cons_append] at h
      rw [noDoubledUnderscore]
      rw [show ((d :: ds) ++ t : List Char) = d :: (ds ++ t) from rfl] at h
      rw [noDoubledUnderscore] at h
      obtain ⟨hpair, hrest⟩ := Bool.and_eq_true_iff.mp h
      exact Bool.and_eq_true_iff.mpr ⟨hpair, ih hrest⟩

lemma noDoubled_dropWhileUnd {l : List Char} (h : noDoubledUnderscore l = true) :
    noDoubledUnderscore (l.dropWhile (fun c => c == '_')) = true := by
  induction l with
  | nil => exact h
  | cons c cs ih =>
    by_cases hc : (c == '_') = true
    · rw [List.dropWhile_cons_of_pos (p := fun x => x == '_') hc]
      exact ih (noDoubled_tail h)
    · rw [List.dropWhile_cons_of_neg (p := fun x => x == '_') hc]
      exact h

lemma noDoubled_dropTrailing {l : List Char} (h : noDoubledUnderscore l = true) :
    noDoubledUnderscore (dropTrailingUnderscores l) = true := by
  obtain ⟨t, ht⟩ := dropTrailing_eq_append l
  rw [ht] at h
  exact noDoubled_append_right h

lemma noDoubled_take (n : Nat) {l : List Char} (h : noDoubledUnderscore l = true) :
    noDoubledUnderscore (l.take n) = true := by
  have := List.take_append_drop n l
  rw [← this] at h
  exact noDoubled_append_right h

lemma mem_dropTrailing_subset {l : List Char} {c : Char}
    (hc : c ∈ dropTrailingUnderscores l) : c ∈ l := by
  obtain ⟨t, ht⟩ := dropTrailing_eq_append l
  rw [ht]
  exact List.mem_append_left t hc

lemma sanitizeDescription_all {x : List Char} :
    ∀ c ∈ sanitizeDescription x, sanitizedChar c = true := by
  intro c hc
  unfold sanitizeDescription at hc
  have h0 : ∀ a ∈ (x.map Char.toLower).filter
      (fun c => isLowerCh c || isDigitCh c || isSpaceCh c),
      (isLowerCh a || isDigitCh a || isSpaceCh a) = true := by
    intro a ha
    exact (List.mem_filter.mp ha).2
  have h1 := collapseSpacesAux_all h0 false
  have h2 := collapseUnderscoresAux_all (P := sanitizedChar) (by decide) h1 false
  have hc1 := List.take_subset 50 _ hc
  have hc2 := mem_dropTrailing_subset hc1
  have hc3 := (List.dropWhile_sublist _).subset hc2
  exact h2 c hc3

lemma sanitizeDescription_headNot {x : List Char} :
    headNotUnderscore (sanitizeDescription x) = true := by
  unfold sanitizeDescription
  exact headNot_take 50 (headNot_dropTrailing (headNot_dropWhileUnd _))

lemma sanitizeDescription_noDoubled {x : List Char} :
    noDoubledUnderscore (sanitizeDescription x) = true := by
  unfold sanitizeDescription
  exact noDoubled_take 50 (noDoubled_dropTrailing (noDoubled_dropWhileUnd
    (noDoubled_collapseUnd _ false)))

lemma sanitizeDescription_length {x : List Char} :
    (sanitizeDescription x).length ≤ 50 := by
  unfold sanitizeDescription
  exact List.length_take_le 50 _

/-!
### Lemmas about containsSub, the category word, and the world models
-/

lemma isPrefixOf_append_self : ∀ (n b : List Char), n.isPrefixOf (n ++ b) = true := by
  intro n b
  induction n with
  | nil => cases b <;> rfl
  | cons c cs ih => simp [List.isPrefixOf, ih]

lemma containsSub_append_self : ∀ (a n b : List Char), containsSub n (a ++ (n ++ b)) = true := by
  intro a
  induction a with
  | nil =>
    intro n b
    rw [List.nil_append]
    cases hnb : n ++ b with
    | nil =>
      obtain ⟨hn, _⟩ := List.append_eq_nil.mp hnb
      subst hn
      rfl
    | cons c cs =>
      have h2 : n.isPrefixOf (c :: cs) = true := by
        rw [← hnb]
        exact isPrefixOf_append_self n b
      simp [containsSub, h2]
  | cons x xs ih =>
    intro n b
    rw [List.cons_append]
    simp [containsSub, ih n b]

lemma buildBranchPrefix_append (t : Option (List Char)) (id s : List Char) :
    buildBranchPrefix t id ++ s = branchCategoryWord t ++ '/' :: (id ++ '_' :: s) := by
  unfold buildBranchPrefix
  simp [List.append_assoc]

lemma containsSub_buildBranchPrefix (t : Option (List Char)) (id s : List Char) :
    containsSub (id ++ ['_']) (buildBranchPrefix t id ++ s) = true := by
  have h := containsSub_append_self (branchCategoryWord t ++ ['/']) (id ++ ['_']) s
  rw [buildBranchPrefix_append]
  simpa [List.append_assoc] using h

lemma branchCategoryWord_extract_none (t : Option (List Char)) :
    extractAux (branchCategoryWord t) = none := by
  cases t with
  | none => decide
  | some tt =>
    simp only [branchCategoryWord]
    by_cases h1 : tt.isEmpty
    · rw [if_pos h1]; decide
    · rw [if_neg h1]
      by_cases h2 : containsSub (String.toList "bug") (tt.map Char.toLower) = true
    -- the category word is one of the three literals in every branch
      · rw [if_pos h2]; decide
      · rw [if_neg h2]
        by_cases h3 : (containsSub (String.toList "documentation") (tt.map Char.toLower)
            || containsSub (String.toList "dokumentation") (tt.map Char.toLower)) = true
        · rw [if_pos h3]; decide
        · rw [if_neg h3]; decide

lemma length_filter_pos_iff {α : Type} (p : α → Bool) (l : List α) :
    0 < (l.filter p).length ↔ ∃ a ∈ l, p a = true := by
  constructor
  · intro h
    cases hl : l.filter p with
    | nil => rw [hl] at h; simp at h
    | cons b bs =>
      have hb : b ∈ l.filter p := by rw [hl]; exact List.mem_cons_self _ _
      exact ⟨b, (List.mem_filter.mp hb).1, (List.mem_filter.mp hb).2⟩
  · rintro ⟨a, ha, hp⟩
    exact List.length_pos_of_mem (List.mem_filter.mpr ⟨ha, hp⟩)

lemma devMain_post (ticketId : List Char) (ticketType : Option (List Char)) (desc : List Char)
    (w : DevWorld) :
    (devMain ticketId ticketType desc w).1.ticketStatus = TICKET_STATUS_IN_PROGRESS ∧
      ∃ b, findBranchWithTicketId ticketId (devMain ticketId ticketType desc w).1.branches
        = some b := by
  cases hf : findBranchWithTicketId ticketId w.branches with
  | some b =>
    by_cases hs : w.ticketStatus ≠ TICKET_STATUS_IN_PROGRESS
    · refine ⟨by simp [devMain, hf, hs], b, ?_⟩
      simp [devMain, hf, hs]
    · rw [not_not] at hs
      refine ⟨by simp [devMain, hf, hs], b, ?_⟩
      simp [devMain, hf, hs]
  | none =>
    have hfound : findBranchWithTicketId ticketId
        ((buildBranchPrefix ticketType ticketId ++ sanitizeDescription desc) :: w.branches)
        = some (buildBranchPrefix ticketType ticketId ++ sanitizeDescription desc) := by
      unfold findBranchWithTicketId
      rw [List.find?_cons_of_pos]
      exact containsSub_buildBranchPrefix ticketType ticketId (sanitizeDescription desc)
    by_cases hs : w.ticketStatus ≠ TICKET_STATUS_IN_PROGRESS
    · exact ⟨by simp [devMain, hf, hs], _, by simp [devMain, hf, hs]; exact hfound⟩
    · rw [not_not] at hs
      exact ⟨by simp [devMain, hf, hs], _, by simp [devMain, hf, hs]; exact hfound⟩

/-!
### Claim theorems
-/

/-- C1: in every run of the finish transition, the merge call is issued only
when the located open PR is not already merged, its tri-state mergeable flag
is not explicitly `false`, and its aggregated check state is neither
"failure" nor "error"; a `null` (unknown) mergeable still reaches the
confirmation gate, and a "pending" check state produces only a warning,
never an abort. -/
theorem C1_finish_merge_gate :
    ∀ (d : PullRequestDetails) (s : CheckStatus) (confirmMerge : Bool),
      ((finishGate d s confirmMerge).mergeCalled = true →
        d.merged = false ∧ d.mergeable ≠ some false ∧
          s.state ≠ "failure" ∧ s.state ≠ "error") ∧
      (d.merged = false → d.mergeable = none →
        s.state ≠ "failure" → s.state ≠ "error" →
        (finishGate d s confirmMerge).reachedConfirmGate = true ∧
          (finishGate d s confirmMerge).abortedBeforeConfirm = false) ∧
      (s.state = "pending" → d.merged = false → d.mergeable ≠ some false →
        (finishGate d s confirmMerge).warnedPending = true ∧
          (finishGate d s confirmMerge).abortedBeforeConfirm = false ∧
          (finishGate d s confirmMerge).reachedConfirmGate = true) := by
  intro d s confirmMerge
  refine ⟨?_, ?_, ?_⟩
  · intro hm
    by_cases h1 : d.merged = true
    · exfalso; revert hm; simp [finishGate, h1]
    by_cases h2 : d.mergeable = some false
    · exfalso; revert hm; simp [finishGate, h1, h2]
    by_cases h3 : s.state = "failure" ∨ s.state = "error"
    · exfalso; revert hm; simp [finishGate, h1, h2, h3]
    · push_neg at h3
      exact ⟨Bool.eq_false_iff.mpr h1, h2, h3.1, h3.2⟩
  · intro hmg hnull hf he
    have h1 : ¬ d.merged = true := by simp [hmg]
    have h2 : ¬ d.mergeable = some false := by rw [hnull]; simp
    have h3 : ¬ (s.state = "failure" ∨ s.state = "error") := by
      rintro (h | h)
      · exact hf h
      · exact he h
    by_cases h4 : confirmMerge = true
    · simp [finishGate, h1, h2, h3, h4]
    · simp [finishGate, h1, h2, h3, h4]
  · intro hp hmg h2
    have h1 : ¬ d.merged = true := by simp [hmg]
    have h3 : ¬ (s.state = "failure" ∨ s.state = "error") := by
      rw [hp]; decide
    by_cases h4 : confirmMerge = true
    · simp [finishGate, h1, h2, h3, h4, hp]
    · simp [finishGate, h1, h2, h3, h4, hp]

/-- Witness for C1 at a concrete run: an unmerged PR with unknown (`null`)
mergeable flag and pending checks reaches the confirmation gate with a
warning, and a confirmed merge issues the merge call. -/
theorem C1_witness :
    (finishGate ⟨7, "u", "t", none, false, "h", "sha", "b"⟩ ⟨"pending", none⟩ true).reachedConfirmGate
        = true ∧
      (finishGate ⟨7, "u", "t", none, false, "h", "sha", "b"⟩ ⟨"pending", none⟩ true).warnedPending
        = true ∧
      (finishGate ⟨7, "u", "t", none, false, "h", "sha", "b"⟩ ⟨"pending", none⟩ true).mergeCalled
        = true := by
  have h := C1_finish_merge_gate ⟨7, "u", "t", none, false, "h", "sha", "b"⟩ ⟨"pending", none⟩ true
  refine ⟨(h.2.1 rfl rfl (by decide) (by decide)).1, (h.2.2 rfl rfl (by decide)).1, ?_⟩
  decide

/-- C2, counterexample: the branch name `a/AB-1_b/CD-2_c` is of the form
`{cat}/{ID}_{desc}` with `cat = a/AB-1_b`, `ID = CD-2` (a well-formed
ticket identifier) and `desc = c`, yet `extractTicketIdFromBranchName`
returns `AB-1`, not `CD-2` — the claim's universally quantified positive
half fails on branch names whose category part itself contains a
qualifying segment. -/
theorem C2_counterexample :
    isTicketId (String.toList "CD-2") = true ∧
      String.toList "a/AB-1_b/CD-2_c" =
        String.toList "a/AB-1_b" ++ '/' :: (String.toList "CD-2" ++ '_' :: String.toList "c") ∧
      extractTicketIdFromBranchName (String.toList "a/AB-1_b/CD-2_c")
        = some (String.toList "AB-1") ∧
      some (String.toList "AB-1") ≠ some (String.toList "CD-2") := by
  refine ⟨by decide, by decide, by decide, by decide⟩

/-- C2, amended: extraction returns the identifier of the first qualifying
segment.  When the category part contains no qualifying segment (its own
extraction yields none), `extractTicketIdFromBranchName ({cat}/{ID}_{desc})`
returns exactly `ID` for every well-formed identifier `ID`; and whenever no
segment between a `/` and the next `_` matches the letters-hyphen-digits
shape, the function returns none. -/
theorem C2_extract_amended :
    (∀ cat id desc : List Char,
      extractTicketIdFromBranchName cat = none → isTicketId id = true →
        extractTicketIdFromBranchName (cat ++ '/' :: (id ++ '_' :: desc)) = some id) ∧
    (∀ N : List Char,
      (∀ u v, N = u ++ '/' :: v → hasTicketSegment v = false) →
        extractTicketIdFromBranchName N = none) :=
  ⟨fun _cat id desc h1 h2 => extractAux_append_slash id desc h1 h2,
   fun _N h => extractAux_eq_none h⟩

/-- Witness for C2 at concrete inputs: a clean category gives back the
embedded identifier, and a branch name without a qualifying segment
extracts to none. -/
theorem C2_witness :
    extractTicketIdFromBranchName
        (String.toList "x" ++ '/' :: (String.toList "AB-1" ++ '_' :: String.toList "y"))
        = some (String.toList "AB-1") ∧
      extractTicketIdFromBranchName (String.toList "main") = none := by
  refine ⟨C2_extract_amended.1 (String.toList "x") (String.toList "AB-1") (String.toList "y")
    (by decide) (by decide), C2_extract_amended.2 (String.toList "main") ?_⟩
  intro u v huv
  have hm : '/' ∈ String.toList "main" := by
    rw [huv]
    exact List.mem_append_right u (List.mem_cons_self _ _)
  exact absurd hm (by decide)

/-- C3, counterexample: `sanitizeDescription` is not idempotent — underscores
produced from whitespace on the first pass are deleted as disallowed
characters on a second pass (`a b ↦ a_b ↦ ab`) — and because truncation
runs after trimming, the output can end in an underscore (49 `a`s followed
by ` b`). -/
theorem C3_counterexample :
    sanitizeDescription (String.toList "a b") = String.toList "a_b" ∧
      sanitizeDescription (sanitizeDescription (String.toList "a b")) = String.toList "ab" ∧
      String.toList "ab" ≠ String.toList "a_b" ∧
      (sanitizeDescription
          (String.toList "aaaaaaaaaaaaaaaaaaaaaaaaaaaaaaaaaaaaaaaaaaaaaaaaa b")).getLast?
        = some '_' := by
  refine ⟨by decide, by decide, by decide, by decide⟩

/-- C3, amended: for every input, the output of `sanitizeDescription`
matches `[a-z0-9_]*`, has no leading underscore, no doubled underscore, and
length at most 50.  Idempotence fails, and a trailing underscore can
survive truncation, as the counterexample shows. -/
theorem C3_sanitize_amended :
    ∀ x : List Char,
      (∀ c ∈ sanitizeDescription x, sanitizedChar c = true) ∧
        headNotUnderscore (sanitizeDescription x) = true ∧
        noDoubledUnderscore (sanitizeDescription x) = true ∧
        (sanitizeDescription x).length ≤ 50 :=
  fun _x => ⟨sanitizeDescription_all, sanitizeDescription_headNot,
    sanitizeDescription_noDoubled, sanitizeDescription_length⟩

/-- Witness for C3 at a concrete input, discharging the membership
hypothesis of the first conjunct. -/
theorem C3_witness :
    sanitizedChar 'f' = true ∧
      headNotUnderscore (sanitizeDescription (String.toList "Fix Login!!")) = true ∧
      (sanitizeDescription (String.toList "Fix Login!!")).length ≤ 50 := by
  have h := C3_sanitize_amended (String.toList "Fix Login!!")
  exact ⟨h.1 'f' (by decide), h.2.1, h.2.2.2⟩

/-- C4: the aggregated status is "failure" if any check run concluded
failure, cancelled or timed_out; otherwise "pending" if any run is queued,
in progress, or unconcluded; otherwise "success" when at least one run
exists; with zero check runs it falls back to the legacy combined status,
where zero legacy statuses count as "success". -/
theorem C4_aggregated_status :
    ∀ (combined : CombinedStatus) (checkRuns : List CheckRun),
      ((∃ run ∈ checkRuns, run.conclusion = some "failure" ∨ run.conclusion = some "cancelled"
          ∨ run.conclusion = some "timed_out") →
        (checkPullRequestStatus combined checkRuns).state = "failure") ∧
      ((∀ run ∈ checkRuns, ¬(run.conclusion = some "failure" ∨ run.conclusion = some "cancelled"
          ∨ run.conclusion = some "timed_out")) →
        (∃ run ∈ checkRuns, run.status = "queued" ∨ run.status = "in_progress"
          ∨ run.conclusion = none) →
        (checkPullRequestStatus combined checkRuns).state = "pending") ∧
      (checkRuns ≠ [] →
        (∀ run ∈ checkRuns, ¬(run.conclusion = some "failure" ∨ run.conclusion = some "cancelled"
          ∨ run.conclusion = some "timed_out")) →
        (∀ run ∈ checkRuns, ¬(run.status = "queued" ∨ run.status = "in_progress"
          ∨ run.conclusion = none)) →
        (checkPullRequestStatus combined checkRuns).state = "success") ∧
      (checkRuns = [] →
        (combined.statuses = [] → (checkPullRequestStatus combined checkRuns).state = "success") ∧
        (combined.statuses ≠ [] →
          (checkPullRequestStatus combined checkRuns).state = combined.state)) := by
  intro combined runs
  refine ⟨?_, ?_, ?_, ?_⟩
  · rintro ⟨r, hr, hconc⟩
    have hlen : runs.length > 0 := List.length_pos_of_mem hr
    have hfail : 0 < (runs.filter (fun run =>
        run.conclusion == some "failure" || run.conclusion == some "cancelled"
          || run.conclusion == some "timed_out")).length := by
      refine (length_filter_pos_iff _ _).mpr ⟨r, hr, ?_⟩
      rcases hconc with h | h | h <;> simp [h]
    simp [checkPullRequestStatus, hlen, hfail]
  · intro hnofail hpend
    obtain ⟨r, hr, hstat⟩ := hpend
    have hlen : runs.length > 0 := List.length_pos_of_mem hr
    have hfail0 : ¬ 0 < (runs.filter (fun run =>
        run.conclusion == some "failure" || run.conclusion == some "cancelled"
          || run.conclusion == some "timed_out")).length := by
      rw [length_filter_pos_iff]
      rintro ⟨a, ha, hpa⟩
      refine hnofail a ha ?_
      simp at hpa
      tauto
    have hpendpos : 0 < (runs.filter (fun run =>
        run.status == "in_progress" || run.status == "queued"
          || run.conclusion == none)).length := by
      refine (length_filter_pos_iff _ _).mpr ⟨r, hr, ?_⟩
      rcases hstat with h | h | h <;> simp [h]
    simp [checkPullRequestStatus, hlen, hfail0, hpendpos]
  · intro hne hnofail hnopend
    have hlen : runs.length > 0 := List.length_pos.mpr hne
    have hfail0 : ¬ 0 < (runs.filter (fun run =>
        run.conclusion == some "failure" || run.conclusion == some "cancelled"
          || run.conclusion == some "timed_out")).length := by
      rw [length_filter_pos_iff]
      rintro ⟨a, ha, hpa⟩
      refine hnofail a ha ?_
      simp at hpa
      tauto
    have hpend0 : ¬ 0 < (runs.filter (fun run =>
        run.status == "in_progress" || run.status == "queued"
          || run.conclusion == none)).length := by
      rw [length_filter_pos_iff]
      rintro ⟨a, ha, hpa⟩
      refine hnopend a ha ?_
      have := hpa
      simp at this
      tauto
    simp [checkPullRequestStatus, hlen, hfail0, hpend0]
  · intro hnil
    subst hnil
    constructor
    · intro hs
      simp [checkPullRequestStatus, hs]
    · intro hs
      have hlen0 : combined.statuses.length ≠ 0 := by
        simpa [List.length_eq_zero] using hs
      by_cases hc : (combined.state == "pending" || combined.state == "success") = true
      · simp [checkPullRequestStatus, hlen0, hc]
      · simp [checkPullRequestStatus, hlen0, hc]

/-- Witness for C4 at the spec's concrete examples: one failed run gives
failure, one queued run gives pending, one successful run gives success,
and no runs with no legacy statuses gives success. -/
theorem C4_witness :
    (checkPullRequestStatus ⟨"pending", []⟩ [⟨"completed", some "failure"⟩]).state = "failure" ∧
      (checkPullRequestStatus ⟨"pending", []⟩ [⟨"queued", none⟩]).state = "pending" ∧
      (checkPullRequestStatus ⟨"pending", []⟩ [⟨"completed", some "success"⟩]).state = "success" ∧
      (checkPullRequestStatus ⟨"pending", []⟩ []).state = "success" := by
  have h1 := (C4_aggregated_status ⟨"pending", []⟩ [⟨"completed", some "failure"⟩]).1
  have h2 := C4_aggregated_status ⟨"pending", []⟩ [⟨"queued", none⟩]
  have h3 := C4_aggregated_status ⟨"pending", []⟩ [⟨"completed", some "success"⟩]
  have h4 := (C4_aggregated_status ⟨"pending", []⟩ []).2.2.2
  refine ⟨h1 ⟨_, List.mem_cons_self _ _, by decide⟩, ?_, ?_, (h4 rfl).1 rfl⟩
  · refine h2.2.1 ?_ ⟨_, List.mem_cons_self _ _, by decide⟩
    intro run hrun
    simp only [List.mem_singleton] at hrun
    subst hrun
    decide
  · refine h3.2.2.1 (by decide) ?_ ?_ <;> intro run hrun <;>
      simp only [List.mem_singleton] at hrun <;> subst hrun <;> decide

/-- C5: when an open PR for (head, base) already exists, `mrMain` performs
no creation call and writes the ticket status only when it is not already
"In review"; consequently two consecutive runs with no external changes
create at most one pull request in total. -/
theorem C5_open_for_review_idempotent :
    (∀ (w : MrWorld) (n : Nat), w.openPR = some n →
      (mrMain w).2.prCreations = 0 ∧
        (w.ticketStatus = TICKET_STATUS_IN_REVIEW → (mrMain w).2.statusWrites = 0) ∧
        (w.ticketStatus ≠ TICKET_STATUS_IN_REVIEW → (mrMain w).2.statusWrites = 1)) ∧
    (∀ w : MrWorld,
      (mrMain w).2.prCreations + (mrMain (mrMain w).1).2.prCreations ≤ 1) := by
  constructor
  · intro w n h
    by_cases hs : w.ticketStatus = TICKET_STATUS_IN_REVIEW
    · refine ⟨by simp [mrMain, h, hs], fun _ => by simp [mrMain, h, hs], fun hne => ?_⟩
      exact absurd hs hne
    · exact ⟨by simp [mrMain, h, hs], fun heq => absurd heq hs, fun _ => by simp [mrMain, h, hs]⟩
  · intro w
    cases hpr : w.openPR with
    | some n =>
      by_cases hs : w.ticketStatus = TICKET_STATUS_IN_REVIEW <;>
        simp [mrMain, hpr, hs]
    | none => simp [mrMain, hpr]

/-- Witness for C5 at a concrete world: with an existing PR and a ticket
still in Backlog, no PR is created and exactly one status write happens. -/
theorem C5_witness :
    (mrMain ⟨some 5, TICKET_STATUS_BACKLOG⟩).2.prCreations = 0 ∧
      (mrMain ⟨some 5, TICKET_STATUS_BACKLOG⟩).2.statusWrites = 1 := by
  have h := C5_open_for_review_idempotent.1 ⟨some 5, TICKET_STATUS_BACKLOG⟩ 5 rfl
  exact ⟨h.1, h.2.2 (by decide)⟩

/-- C6: for a ticket already "In progress" with an existing branch
containing `{ticketId}_`, `devMain` performs zero status updates and zero
branch creations — it only switches to the existing branch and pulls; and
any second consecutive run with no external changes performs no additional
mutations. -/
theorem C6_start_work_idempotent :
    (∀ (ticketId : List Char) (ticketType : Option (List Char)) (desc : List Char)
        (w : DevWorld) (b : List Char),
      w.ticketStatus = TICKET_STATUS_IN_PROGRESS →
      findBranchWithTicketId ticketId w.branches = some b →
      devMain ticketId ticketType desc w =
        (w, { branchCreations := 0, statusUpdates := 0, switchedToExisting := true })) ∧
    (∀ (ticketId : List Char) (ticketType : Option (List Char)) (d1 d2 : List Char)
        (w : DevWorld),
      (devMain ticketId ticketType d2 (devMain ticketId ticketType d1 w).1).2 =
        { branchCreations := 0, statusUpdates := 0, switchedToExisting := true }) := by
  have part1 : ∀ (ticketId : List Char) (ticketType : Option (List Char)) (desc : List Char)
      (w : DevWorld) (b : List Char),
      w.ticketStatus = TICKET_STATUS_IN_PROGRESS →
      findBranchWithTicketId ticketId w.branches = some b →
      devMain ticketId ticketType desc w =
        (w, { branchCreations := 0, statusUpdates := 0, switchedToExisting := true }) := by
    intro ticketId ticketType desc w b hst hf
    obtain ⟨ws, wb⟩ := w
    simp only [] at hst hf
    subst hst
    simp [devMain, hf]
  refine ⟨part1, ?_⟩
  intro ticketId ticketType d1 d2 w
  obtain ⟨hst, b, hf⟩ := devMain_post ticketId ticketType d1 w
  rw [part1 ticketId ticketType d2 _ b hst hf]

/-- Witness for C6 at a concrete world: ticket in progress, branch
`feature/AB-1_x` present — the run changes nothing. -/
theorem C6_witness :
    devMain (String.toList "AB-1") none (String.toList "d")
        ⟨TICKET_STATUS_IN_PROGRESS, [String.toList "feature/AB-1_x"]⟩ =
      (⟨TICKET_STATUS_IN_PROGRESS, [String.toList "feature/AB-1_x"]⟩,
        { branchCreations := 0, statusUpdates := 0, switchedToExisting := true }) :=
  C6_start_work_idempotent.1 (String.toList "AB-1") none (String.toList "d")
    ⟨TICKET_STATUS_IN_PROGRESS, [String.toList "feature/AB-1_x"]⟩
    (String.toList "feature/AB-1_x") rfl (by decide)

/-- C7, counterexample: a genuine remote failure also yields none — the
catch block of `checkIfPullRequestExists` logs the error and returns null
instead of rethrowing, so none does not imply a successful empty report. -/
theorem C7_counterexample :
    checkIfPullRequestExists (Except.error "network failure") = none ∧
      ∀ prs : List PullRequest, (Except.error "network failure" : Except String (List PullRequest))
        ≠ Except.ok prs :=
  ⟨rfl, fun _prs h => Except.noConfusion h⟩

/-- C7, amended: on a successful response the first matching PR (or none
when the list is empty) is returned, but a remote failure is swallowed —
none is returned both for a successful empty report and for any error, so
the caller cannot distinguish the two. -/
theorem C7_exists_amended :
    (∀ (pr : PullRequest) (rest : List PullRequest),
      checkIfPullRequestExists (Except.ok (pr :: rest)) = some pr) ∧
    checkIfPullRequestExists (Except.ok []) = none ∧
    (∀ e : String, checkIfPullRequestExists (Except.error e) = none) ∧
    (∀ response : Except String (List PullRequest),
      checkIfPullRequestExists response = none ↔
        response = Except.ok [] ∨ ∃ e, response = Except.error e) := by
  refine ⟨fun pr rest => rfl, rfl, fun e => rfl, ?_⟩
  intro response
  constructor
  · intro h
    match response with
    | Except.ok [] => exact Or.inl rfl
    | Except.ok (pr :: rest) => exact absurd h (by simp [checkIfPullRequestExists])
    | Except.error e => exact Or.inr ⟨e, rfl⟩
  · rintro (rfl | ⟨e, rfl⟩) <;> rfl

/-- C8, counterexample: when the remote deletion fails, the shared try
block jumps to the catch and the local deletion is never attempted —
the two halves are not independent. -/
theorem C8_counterexample :
    finishBranchCleanup true false
        = [CleanupEvent.deleteRemoteBranch, CleanupEvent.reportDeleteError] ∧
      CleanupEvent.deleteLocalBranch true ∉ finishBranchCleanup true false := by
  refine ⟨by decide, by decide⟩

/-- C8, amended: the remote branch deletion is always attempted first and
the local deletion (forced) follows it when the remote half succeeds; but a
remote-deletion failure is caught by the shared handler, which reports the
error and skips the local deletion for that run (the command itself
continues). -/
theorem C8_cleanup_amended :
    ∀ remoteDeleteFails localDeleteFails : Bool,
      (finishBranchCleanup remoteDeleteFails localDeleteFails).head?
          = some CleanupEvent.deleteRemoteBranch ∧
        (remoteDeleteFails = false →
          CleanupEvent.deleteLocalBranch true
            ∈ finishBranchCleanup remoteDeleteFails localDeleteFails) ∧
        (remoteDeleteFails = true →
          CleanupEvent.deleteLocalBranch true
              ∉ finishBranchCleanup remoteDeleteFails localDeleteFails ∧
            CleanupEvent.reportDeleteError
              ∈ finishBranchCleanup remoteDeleteFails localDeleteFails) := by
  decide

/-- Witness for C8 at concrete failure patterns. -/
theorem C8_witness :
    CleanupEvent.deleteLocalBranch true ∉ finishBranchCleanup true false ∧
      CleanupEvent.deleteLocalBranch true ∈ finishBranchCleanup false true :=
  ⟨((C8_cleanup_amended true false).2.2 rfl).1, (C8_cleanup_amended false true).2.1 rfl⟩

/-- C9, counterexample: a status name outside the enumerated status set is
surfaced verbatim, not as "Unknown" — `mapPageToTicket` of a page whose
Status property reads "Blocked" yields status "Blocked". -/
theorem C9_counterexample :
    (mapPageToTicket ⟨"p1", [("Status",
        { type := "status", status := some "Blocked" })]⟩).status = "Blocked" ∧
      "Blocked" ∉ [TICKET_STATUS_BACKLOG, TICKET_STATUS_IN_PROGRESS, TICKET_STATUS_IN_REVIEW] ∧
      (mapPageToTicket ⟨"p1", [("Status",
        { type := "status", status := some "Blocked" })]⟩).status ≠ DEFAULT_UNKNOWN_STATUS := by
  refine ⟨by decide, by decide, by decide⟩

/-- C9, amended: `mapPageToTicket` is total and never fails on absent data:
an absent (or unreadable) title yields "Untitled", an absent type yields
`undefined`, and a status property that is absent or carries no readable
name yields "Unknown"; a readable status name, however, is surfaced
verbatim even when it lies outside the enumerated status set. -/
theorem C9_map_amended :
    ∀ page : NotionPage,
      ((∀ kp ∈ page.properties, kp.2.type ≠ NOTION_TYPE_TITLE ∨ truthy kp.2.title.head? = none) →
        (mapPageToTicket page).title = DEFAULT_UNTITLED) ∧
      ((∀ p, page.properties.lookup NOTION_PROPERTY_TYPE = some p →
          p.type ≠ NOTION_TYPE_SELECT ∨ truthy p.select = none) →
        (mapPageToTicket page).type = none) ∧
      ((∀ p, page.properties.lookup NOTION_PROPERTY_STATUS = some p →
          p.type ≠ NOTION_TYPE_STATUS ∨ truthy p.status = none) →
        (mapPageToTicket page).status = DEFAULT_UNKNOWN_STATUS) ∧
      (∀ p s, page.properties.lookup NOTION_PROPERTY_STATUS = some p →
        p.type = NOTION_TYPE_STATUS → truthy p.status = some s →
        (mapPageToTicket page).status = s) := by
  intro page
  refine ⟨?_, ?_, ?_, ?_⟩
  · intro h
    have hfs : page.properties.findSome? (fun kp =>
        if kp.2.type = NOTION_TYPE_TITLE then truthy kp.2.title.head? else none) = none := by
      rw [List.findSome?_eq_none_iff]
      intro kp hkp
      rcases h kp hkp with h1 | h1
      · rw [if_neg h1]
      · by_cases ht : kp.2.type = NOTION_TYPE_TITLE
        · rw [if_pos ht]; exact h1
        · rw [if_neg ht]
    simp [mapPageToTicket, hfs]
  · intro h
    cases hlk : page.properties.lookup NOTION_PROPERTY_TYPE with
    | none => simp [mapPageToTicket, hlk]
    | some p =>
      rcases h p hlk with h1 | h1
      · simp [mapPageToTicket, hlk, h1]
      · by_cases ht : p.type = NOTION_TYPE_SELECT
        · simp [mapPageToTicket, hlk, ht, h1]
        · simp [mapPageToTicket, hlk, ht]
  · intro h
    cases hlk : page.properties.lookup NOTION_PROPERTY_STATUS with
    | none => simp [mapPageToTicket, hlk]
    | some p =>
      rcases h p hlk with h1 | h1
      · simp [mapPageToTicket, hlk, h1]
      · by_cases ht : p.type = NOTION_TYPE_STATUS
        · simp [mapPageToTicket, hlk, ht, h1]
        · simp [mapPageToTicket, hlk, ht]
  · intro p s hlk ht htr
    simp [mapPageToTicket, hlk, ht, htr]

/-- Witness for C9: the empty page maps to an "Untitled", type-less,
"Unknown"-status ticket; a readable status is passed through. -/
theorem C9_witness :
    (mapPageToTicket ⟨"p", []⟩).title = DEFAULT_UNTITLED ∧
      (mapPageToTicket ⟨"p", []⟩).type = none ∧
      (mapPageToTicket ⟨"p", []⟩).status = DEFAULT_UNKNOWN_STATUS ∧
      (mapPageToTicket ⟨"p2", [("Status",
        { type := "status", status := some TICKET_STATUS_IN_REVIEW })]⟩).status
        = TICKET_STATUS_IN_REVIEW := by
  have h := C9_map_amended ⟨"p", []⟩
  have h2 := C9_map_amended ⟨"p2", [("Status",
    { type := "status", status := some TICKET_STATUS_IN_REVIEW })]⟩
  refine ⟨h.1 (by intro kp hkp; simp at hkp), h.2.1 ?_, h.2.2.1 ?_, ?_⟩
  · intro p hp
    simp at hp
  · intro p hp
    simp at hp
  · exact h2.2.2.2 { type := "status", status := some TICKET_STATUS_IN_REVIEW }
      TICKET_STATUS_IN_REVIEW (by rfl) rfl (by rfl)

/-- C10: branch-name composition and identifier extraction round-trip —
for every ticket type (including `undefined`), every well-formed ticket
identifier, and every description,
`extractTicketIdFromBranchName (buildBranchPrefix type id ++ sanitizeDescription d)`
returns exactly `id`. -/
theorem C10_roundTrip :
    ∀ (ticketType : Option (List Char)) (ticketId desc : List Char),
      isTicketId ticketId = true →
      extractTicketIdFromBranchName
          (buildBranchPrefix ticketType ticketId ++ sanitizeDescription desc)
        = some ticketId := by
  intro t id d hid
  have hw : extractAux (branchCategoryWord t) = none := branchCategoryWord_extract_none t
  have hmain := extractAux_append_slash id (sanitizeDescription d) hw hid
  rw [buildBranchPrefix_append]
  exact hmain

/-- Witness for C10 at the spec's scenario: type "Bug", ticket `ABC-12`,
description `Fix Login!!` — the composed branch is
`bugfix/ABC-12_fix_login` and extraction returns `ABC-12`. -/
theorem C10_witness :
    extractTicketIdFromBranchName
        (buildBranchPrefix (some (String.toList "Bug")) (String.toList "ABC-12") ++
          sanitizeDescription (String.toList "Fix Login!!"))
      = some (String.toList "ABC-12") :=
  C10_roundTrip (some (String.toList "Bug")) (String.toList "ABC-12")
    (String.toList "Fix Login!!") (by decide)

end Devotion
